import Mathlib

/-!
Verification of the distance-vector routing daemon in `simple_router.py`.

Python dictionaries are modelled as association lists over `String` keys,
preserving insertion order (`dictInsert` updates an existing key in place and
appends a fresh key at the end, as CPython dicts do).  Costs and timestamps
are modelled as rationals (`ℚ`), which represent the float arithmetic of the
source exactly on the values that occur (sums, and division by configured
bandwidths).
-/

set_option autoImplicit false

namespace SimpleRouter

/-- Lookup of a key in a Python-style dict (first occurrence wins). -/
def dictGet {α : Type} : List (String × α) → String → Option α
  | [], _ => none
  | (k, v) :: rest, q => if k = q then some v else dictGet rest q

/-- `d[k] = v` on a Python-style dict: replace in place if the key is
present, append at the end otherwise. -/
def dictInsert {α : Type} : List (String × α) → String → α → List (String × α)
  | [], k, v => [(k, v)]
  | (k', v') :: rest, k, v =>
    if k' = k then (k, v) :: rest else (k', v') :: dictInsert rest k v

/-- `del d[k]` on a Python-style dict. -/
def dictDelete {α : Type} : List (String × α) → String → List (String × α)
  | [], _ => []
  | (k', v') :: rest, k =>
    if k' = k then dictDelete rest k else (k', v') :: dictDelete rest k

/-- `list(d.keys())`. -/
def dictKeys {α : Type} (m : List (String × α)) : List String :=
  m.map Prod.fst

theorem dictGet_dictInsert_self {α : Type} (m : List (String × α)) (k : String) (v : α) :
    dictGet (dictInsert m k v) k = some v := by
  induction m with
  | nil => simp [dictInsert, dictGet]
  | cons hd tl ih =>
    obtain ⟨k', v'⟩ := hd
    by_cases h : k' = k <;> simp [dictInsert, dictGet, h, ih]

theorem dictGet_dictInsert_ne {α : Type} (m : List (String × α)) (k q : String) (v : α)
    (h : k ≠ q) : dictGet (dictInsert m k v) q = dictGet m q := by
  induction m with
  | nil => simp [dictInsert, dictGet, h]
  | cons hd tl ih =>
    obtain ⟨k', v'⟩ := hd
    by_cases hk : k' = k
    · subst hk
      simp [dictInsert, dictGet, h]
    · simp [dictInsert, dictGet, hk, ih]

theorem dictGet_dictDelete_self {α : Type} (m : List (String × α)) (k : String) :
    dictGet (dictDelete m k) k = none := by
  induction m with
  | nil => simp [dictDelete, dictGet]
  | cons hd tl ih =>
    obtain ⟨k', v'⟩ := hd
    by_cases h : k' = k <;> simp [dictDelete, dictGet, h, ih]

theorem dictGet_dictDelete_ne {α : Type} (m : List (String × α)) (k q : String)
    (h : k ≠ q) : dictGet (dictDelete m k) q = dictGet m q := by
  induction m with
  | nil => simp [dictDelete, dictGet]
  | cons hd tl ih =>
    obtain ⟨k', v'⟩ := hd
    by_cases hk : k' = k
    · subst hk
      simp [dictDelete, dictGet, h, ih]
    · simp [dictDelete, dictGet, hk, ih]

theorem dictGet_mem {α : Type} {m : List (String × α)} {q : String} {v : α}
    (h : dictGet m q = some v) : (q, v) ∈ m := by
  induction m with
  | nil => simp [dictGet] at h
  | cons hd tl ih =>
    obtain ⟨k', v'⟩ := hd
    by_cases hk : k' = q
    · subst hk
      simp [dictGet] at h
      simp [h]
    · simp [dictGet, hk] at h
      exact List.mem_cons_of_mem _ (ih h)

theorem dictGet_ne_none_iff_mem_keys {α : Type} (m : List (String × α)) (q : String) :
    dictGet m q ≠ none ↔ q ∈ dictKeys m := by
  induction m with
  | nil => simp [dictGet, dictKeys]
  | cons hd tl ih =>
    obtain ⟨k', v'⟩ := hd
    by_cases hk : k' = q
    · subst hk
      simp [dictGet, dictKeys]
    · simp [dictGet, dictKeys, hk, Ne.symm hk] at ih ⊢
      exact ih

-- --- Protocol constants (from the top of simple_router.py) ---

def UPDATE_INTERVAL : ℚ := 10
def TIMEOUT_INTERVAL : ℚ := 30
def INFINITY : ℚ := 999
def HOLD_DOWN_INTERVAL : ℚ := 60

-- --- Data model ---

/-- A routing-table record `{"cost": ..., "next_hop": ...}`. -/
structure Route where
  cost : ℚ
  next_hop : String
deriving DecidableEq, Repr

/-- A route as it appears inside a received `table` payload.  Either field
may be absent in the raw JSON object (`info.get("next_hop")` tolerates a
missing next hop; `info["cost"]` raises `KeyError` on a missing cost). -/
structure EntryInfo where
  cost : Option ℚ
  next_hop : Option String
deriving DecidableEq, Repr

/-- The raw metric vector of a configured neighbor; either field may be
missing, in which case `_calculate_composite_cost` applies a default. -/
structure Metrics where
  latency_ms : Option ℚ
  bandwidth_mbps : Option ℚ
deriving DecidableEq, Repr

/-- A record of `self.neighbors` (endpoint, metrics, computed link cost,
liveness timestamp). -/
structure Neighbor where
  ip : String
  port : ℕ
  metrics : Metrics
  last_seen : ℚ
  cost : ℚ
deriving DecidableEq, Repr

/-- The mutable state of a `SimpleRouter` instance (socket and logger
omitted; `last_update_sent` omitted because no claim concerns it). -/
structure RouterState where
  router_id : String
  network_map : List (String × String)
  neighbors : List (String × Neighbor)
  routing_table : List (String × Route)
  hold_down_timers : List (String × ℚ)
  installed_routes : List (String × String)
deriving DecidableEq, Repr

-- --- Startup (__init__ and _calculate_composite_cost) ---

/-- `_calculate_composite_cost`: latency (default 500) plus inverse
bandwidth (default 1) plus a congestion penalty of 0.5 per configured
neighbor. -/
def calcCompositeCost (numNeighbors : ℕ) (metrics : Metrics) : ℚ :=
  let latency := metrics.latency_ms.getD 500
  let bandwidth := metrics.bandwidth_mbps.getD 1
  let bandwidth_cost := 1000 / bandwidth
  let congestion_cost := (numNeighbors : ℚ) * (1 / 2)
  latency + bandwidth_cost + congestion_cost

/-- One entry of the `neighbors` list in the configuration file. -/
structure NeighborConfig where
  id : String
  ip : String
  port : ℕ
  metrics : Metrics
deriving DecidableEq, Repr

/-- The two-pass neighbor initialisation of `__init__`: the table is fully
populated first, then each link cost is computed with the final neighbor
count, so the congestion term does not depend on input order. -/
def initNeighbors (cfg : List NeighborConfig) : List (String × Neighbor) :=
  let base := cfg.map fun n =>
    (n.id, ({ ip := n.ip, port := n.port, metrics := n.metrics,
              last_seen := 0, cost := 0 } : Neighbor))
  base.map fun kv => (kv.1, { kv.2 with cost := calcCompositeCost base.length kv.2.metrics })

/-- The initial routing table `{router_id: {"cost": 0, "next_hop": router_id}}`. -/
def initRoutingTable (rid : String) : List (String × Route) :=
  [(rid, ⟨0, rid⟩)]

/-- Router state right after `__init__`. -/
def initState (rid : String) (nm : List (String × String)) (cfg : List NeighborConfig) :
    RouterState :=
  { router_id := rid, network_map := nm, neighbors := initNeighbors cfg,
    routing_table := initRoutingTable rid, hold_down_timers := [],
    installed_routes := [] }

-- --- Outbound advertisements (send_routing_updates) ---

/-- The per-neighbor table built by `send_routing_updates`: split horizon
with poisoned reverse.  A route whose next hop is the addressee (and whose
destination is not the router itself) is advertised at cost INFINITY;
everything else is advertised verbatim. -/
def buildTableForNeighbor (rid nid : String) (rt : List (String × Route)) :
    List (String × Route) :=
  rt.map fun dr =>
    if dr.1 ≠ rid ∧ dr.2.next_hop = nid then (dr.1, ⟨INFINITY, dr.2.next_hop⟩) else dr

/-- JSON encoding of a routing table for the wire: both fields present. -/
def encodeTable (rt : List (String × Route)) : List (String × EntryInfo) :=
  rt.map fun dr => (dr.1, ⟨some dr.2.cost, some dr.2.next_hop⟩)

-- --- Inbound processing (process_incoming_message) ---

/-- The pieces of router state that the per-destination loop of
`process_incoming_message` reads and writes, plus the `table_changed` flag. -/
structure ProcState where
  routing_table : List (String × Route)
  hold_down : List (String × ℚ)
  changed : Bool
deriving DecidableEq, Repr

/-- Result of processing one advertised destination: either the loop
continues with an updated state, or an uncaught `KeyError` (missing
`"cost"` field) aborts with the state as already mutated. -/
inductive EntryResult where
  | ok (ps : ProcState)
  | crash (ps : ProcState)
deriving DecidableEq, Repr

/-- The body of the per-destination loop after the hold-down gate:
reverse-path gate, then the learn / trusted / competing update rules.
`info.cost = none` models a payload entry without a `"cost"` key, on which
the source raises an uncaught `KeyError` at `info["cost"]`. -/
def processEntryBody (rid sender : String) (cost_to_neighbor : ℚ)
    (ps : ProcState) (destination : String) (info : EntryInfo) : EntryResult :=
  if info.next_hop = some rid then .ok ps
  else
    match info.cost with
    | none => .crash ps
    | some c =>
      let new_cost := cost_to_neighbor + c
      match dictGet ps.routing_table destination with
      | none =>
        if new_cost < INFINITY then
          .ok { ps with
                routing_table := dictInsert ps.routing_table destination ⟨new_cost, sender⟩,
                changed := true }
        else .ok ps
      | some current =>
        if current.next_hop = sender then
          if current.cost ≠ new_cost then
            .ok { ps with
                  routing_table :=
                    dictInsert ps.routing_table destination ⟨new_cost, current.next_hop⟩,
                  changed := true }
          else .ok ps
        else if new_cost < current.cost then
          .ok { ps with
                routing_table := dictInsert ps.routing_table destination ⟨new_cost, sender⟩,
                changed := true }
        else .ok ps

/-- One iteration of the per-destination loop: hold-down gate first (skip
while unexpired, evict on expiry), then the body. -/
def processEntry (rid sender : String) (cost_to_neighbor now : ℚ)
    (ps : ProcState) (destination : String) (info : EntryInfo) : EntryResult :=
  match dictGet ps.hold_down destination with
  | some t =>
    if now - t < HOLD_DOWN_INTERVAL then .ok ps
    else
      processEntryBody rid sender cost_to_neighbor
        { ps with hold_down := dictDelete ps.hold_down destination } destination info
  | none => processEntryBody rid sender cost_to_neighbor ps destination info

/-- The whole per-destination loop; a crash propagates with the state as
mutated so far. -/
def processEntries (rid sender : String) (cost_to_neighbor now : ℚ) :
    ProcState → List (String × EntryInfo) → EntryResult
  | ps, [] => .ok ps
  | ps, (d, info) :: rest =>
    match processEntry rid sender cost_to_neighbor now ps d info with
    | .ok ps' => processEntries rid sender cost_to_neighbor now ps' rest
    | .crash ps' => .crash ps'

/-- An inbound datagram, after the attempted JSON decode and top-level key
extraction: `malformed` covers a parse failure or a missing `sender_id` /
`table` key (the `except` clause of the source). -/
inductive Inbound where
  | malformed
  | update (sender_id : String) (table : List (String × EntryInfo))
deriving DecidableEq, Repr

/-- Result of `process_incoming_message`: the returned `table_changed`
flag, whether a warning was logged, and the state after the call — or an
uncaught exception escaping the method with the state as mutated. -/
inductive ProcResult where
  | ok (changed warned : Bool) (s : RouterState)
  | crash (s : RouterState)
deriving DecidableEq, Repr

/-- `process_incoming_message`: malformed datagrams warn and report no
change; unknown senders are dropped silently; otherwise `last_seen` is
refreshed and every advertised destination is processed in order. -/
def processIncomingMessage (now : ℚ) (inb : Inbound) (s : RouterState) : ProcResult :=
  match inb with
  | .malformed => .ok false true s
  | .update sender table =>
    match dictGet s.neighbors sender with
    | none => .ok false false s
    | some nb =>
      let nbrs' := dictInsert s.neighbors sender { nb with last_seen := now }
      let cost_to_neighbor := nb.cost
      match processEntries s.router_id sender cost_to_neighbor now
          ⟨s.routing_table, s.hold_down_timers, false⟩ table with
      | .ok ps =>
        .ok ps.changed false
          { s with neighbors := nbrs', routing_table := ps.routing_table,
                   hold_down_timers := ps.hold_down }
      | .crash ps =>
        .crash
          { s with neighbors := nbrs', routing_table := ps.routing_table,
                   hold_down_timers := ps.hold_down }

-- --- Neighbor timeouts (check_neighbor_timeouts) ---

/-- The inner loop of `check_neighbor_timeouts` for one dead neighbor:
every still-finite route through it is poisoned in place (next hop
preserved) and a hold-down entry stamped `now` is installed for its
destination. -/
def poisonRoutes (nid : String) (now : ℚ) :
    List (String × Route) → List (String × ℚ) → Bool →
    List (String × Route) × List (String × ℚ) × Bool
  | [], hd, ch => ([], hd, ch)
  | (d, r) :: rest, hd, ch =>
    if r.next_hop = nid ∧ r.cost < INFINITY then
      let res := poisonRoutes nid now rest (dictInsert hd d now) true
      ((d, ⟨INFINITY, r.next_hop⟩) :: res.1, res.2)
    else
      let res := poisonRoutes nid now rest hd ch
      ((d, r) :: res.1, res.2)

/-- The per-neighbor body of `check_neighbor_timeouts`: fire only when the
neighbor has been heard from (`last_seen > 0`) and has been silent longer
than `TIMEOUT_INTERVAL`; then poison its routes and reset `last_seen` to 0. -/
def timeoutOne (now : ℚ) (nid : String) (nb : Neighbor)
    (rt : List (String × Route)) (hd : List (String × ℚ)) (ch : Bool) :
    Neighbor × List (String × Route) × List (String × ℚ) × Bool :=
  if nb.last_seen > 0 ∧ now - nb.last_seen > TIMEOUT_INTERVAL then
    let res := poisonRoutes nid now rt hd ch
    ({ nb with last_seen := 0 }, res)
  else
    (nb, rt, hd, ch)

/-- The scan over all neighbors. -/
def timeoutScan (now : ℚ) :
    List (String × Neighbor) → List (String × Route) → List (String × ℚ) → Bool →
    List (String × Neighbor) × List (String × Route) × List (String × ℚ) × Bool
  | [], rt, hd, ch => ([], rt, hd, ch)
  | (nid, nb) :: rest, rt, hd, ch =>
    let one := timeoutOne now nid nb rt hd ch
    let res := timeoutScan now rest one.2.1 one.2.2.1 one.2.2.2
    ((nid, one.1) :: res.1, res.2)

/-- `check_neighbor_timeouts`: returns the `table_changed` flag and the
state after the scan. -/
def checkNeighborTimeouts (now : ℚ) (s : RouterState) : Bool × RouterState :=
  let res := timeoutScan now s.neighbors s.routing_table s.hold_down_timers false
  (res.2.2.2,
   { s with neighbors := res.1, routing_table := res.2.1, hold_down_timers := res.2.2.1 })

-- --- Forwarding reconciliation (sync_os_routes) ---

/-- A route-install or route-remove intent emitted towards the kernel
(`add_route` uses replace semantics, `delete_route` removes). -/
inductive Intent where
  | add (pfx ip : String)
  | remove (pfx : String)
deriving DecidableEq, Repr

/-- The body of the first loop of `sync_os_routes` for one routing-table
entry, threading the emitted intents and the shadow map
`installed_routes`. -/
def syncStep (rid : String) (nm : List (String × String)) (nbrs : List (String × Neighbor))
    (acc : List Intent × List (String × String)) (e : String × Route) :
    List Intent × List (String × String) :=
  if e.1 = rid then acc
  else
    match dictGet nm e.1 with
    | none => acc
    | some pfx =>
      if pfx = "" then acc
      else if INFINITY ≤ e.2.cost then
        if (dictGet acc.2 pfx).isSome then
          (acc.1 ++ [.remove pfx], dictDelete acc.2 pfx)
        else acc
      else
        match dictGet nbrs e.2.next_hop with
        | none => acc
        | some nb =>
          if nb.ip = "" then acc
          else if dictGet acc.2 pfx ≠ some nb.ip then
            (acc.1 ++ [.add pfx nb.ip], dictInsert acc.2 pfx nb.ip)
          else acc

/-- `current_valid_prefixes`: the set (here: list) of
`network_map.get(dest)` results over destinations whose cost is finite
(`None` results included, as in the source). -/
def validPfxs (nm : List (String × String)) (rt : List (String × Route)) :
    List (Option String) :=
  (rt.filter fun dr => decide (dr.2.cost < INFINITY)).map fun dr => dictGet nm dr.1

/-- The body of the cleanup loop of `sync_os_routes`: remove every
installed prefix the logical table no longer considers reachable. -/
def cleanupStep (valid : List (Option String))
    (acc : List Intent × List (String × String)) (pfx : String) :
    List Intent × List (String × String) :=
  if some pfx ∈ valid then acc
  else (acc.1 ++ [.remove pfx], dictDelete acc.2 pfx)

/-- `sync_os_routes` as a function of the four inputs it reads: emits the
intents of one reconciliation pass and returns the new shadow map.  The
cleanup loop iterates a snapshot of the shadow map's keys taken after the
first loop, exactly as `list(self.installed_routes.keys())` does. -/
def syncOsRoutes (rid : String) (nm : List (String × String))
    (nbrs : List (String × Neighbor)) (rt : List (String × Route))
    (installed : List (String × String)) : List Intent × List (String × String) :=
  let a := rt.foldl (syncStep rid nm nbrs) ([], installed)
  (dictKeys a.2).foldl (cleanupStep (validPfxs nm rt)) a

-- --- Event loop exception handling (run) ---

/-- The exceptions relevant to the main loop. -/
inductive PyExc where
  | socketTimeout
  | connectionReset
  | keyError
  | jsonDecode
deriving DecidableEq, Repr

/-- Which exceptions the `try` in `run` catches around the receive and
`process_incoming_message` call: only `socket.timeout` and
`ConnectionResetError`. -/
def caughtByRunLoop : PyExc → Bool
  | .socketTimeout => true
  | .connectionReset => true
  | .keyError => false
  | .jsonDecode => false

-- --- Concrete fixtures used by witnesses and counterexamples ---

/-- A neighbor record with link cost 5 used by concrete instances. -/
def exNeighbor : Neighbor :=
  { ip := "1.1.1.1", port := 1, metrics := ⟨none, none⟩, last_seen := 0, cost := 5 }

/-- A small concrete router state with one neighbor `n`. -/
def exState : RouterState :=
  { router_id := "r1", network_map := [], neighbors := [("n", exNeighbor)],
    routing_table := [("r1", ⟨0, "r1"⟩)], hold_down_timers := [],
    installed_routes := [] }

-- --- C9 ---

/-- Claim C9: a malformed datagram is answered with a warning, no table
change and completely unchanged state; a parsed datagram from a sender
that is not in the neighbor table is discarded silently with the same
no-state-change guarantee (no `last_seen` is refreshed). -/
theorem c9_malformed_and_unknown_sender (now : ℚ) (s : RouterState) (sender : String)
    (table : List (String × EntryInfo)) (h : dictGet s.neighbors sender = none) :
    processIncomingMessage now .malformed s = .ok false true s
    ∧ processIncomingMessage now (.update sender table) s = .ok false false s := by
  refine ⟨rfl, ?_⟩
  simp [processIncomingMessage, h]

/-- Witness for C9 at a concrete state and unknown sender `z`. -/
theorem c9_witness :
    processIncomingMessage 7 .malformed exState = .ok false true exState
    ∧ processIncomingMessage 7 (.update "z" []) exState = .ok false false exState :=
  c9_malformed_and_unknown_sender 7 exState "z" [] (by decide)

-- --- C10 ---

/-- The state of the C10 scenario: one known neighbor `n`, fresh table. -/
def c10State : RouterState :=
  { router_id := "r1", network_map := [], neighbors := [("n", exNeighbor)],
    routing_table := [("r1", ⟨0, "r1"⟩)], hold_down_timers := [],
    installed_routes := [] }

/-- A payload from `n` whose first entry is well-formed and whose second
entry lacks the `"cost"` key. -/
def c10Table : List (String × EntryInfo) :=
  [("a", ⟨some 3, some "x"⟩), ("b", ⟨none, some "x"⟩)]

/-- The state at the moment the `KeyError` escapes: `last_seen` already
refreshed to 100 and the first entry already applied. -/
def c10After : RouterState :=
  { router_id := "r1", network_map := [],
    neighbors := [("n", { exNeighbor with last_seen := 100 })],
    routing_table := [("r1", ⟨0, "r1"⟩), ("a", ⟨8, "n"⟩)],
    hold_down_timers := [], installed_routes := [] }

/-- Claim C10: an entry that passes the hold-down and reverse-path gates
but lacks `"cost"` raises an uncaught `KeyError` that escapes
`process_incoming_message`; the event loop catches only `socket.timeout`
and `ConnectionResetError`, so it is fatal; and it fires after `last_seen`
and earlier entries of the same datagram were already mutated, so the
datagram is not applied atomically. -/
theorem c10_keyerror_escape :
    processIncomingMessage 100 (.update "n" c10Table) c10State = .crash c10After
    ∧ (dictGet c10After.neighbors "n").map Neighbor.last_seen = some 100
    ∧ dictGet c10After.routing_table "a" = some ⟨8, "n"⟩
    ∧ dictGet c10State.routing_table "a" = none
    ∧ caughtByRunLoop .keyError = false
    ∧ caughtByRunLoop .jsonDecode = false
    ∧ caughtByRunLoop .socketTimeout = true
    ∧ caughtByRunLoop .connectionReset = true := by
  refine ⟨?_, ?_, ?_, ?_, ?_, ?_, ?_, ?_⟩ <;> with_unfolding_all rfl

-- --- C2 ---

/-- Counterexample to claim C2: with link cost 21 and advertised cost 999
the sum 1020 exceeds INFINITY, yet the trusted-update rule stores 1020
itself in the routing table, not the saturated value 999. -/
theorem c2_counterexample :
    processEntry "r1" "s" 21 0 ⟨[("d", ⟨50, "s"⟩)], [], false⟩ "d" ⟨some 999, some "s"⟩
      = .ok ⟨[("d", ⟨1020, "s"⟩)], [], true⟩
    ∧ INFINITY ≤ (21 : ℚ) + 999
    ∧ (1020 : ℚ) ≠ INFINITY := by
  refine ⟨by with_unfolding_all rfl, ?_, ?_⟩ <;> norm_num [INFINITY]

/-- Claim C2 amended: `new_cost` is not saturated.  The raw sum
`link_cost(sender) + advertised_cost` is compared and stored verbatim; in
the trusted-update case a sum at or above INFINITY is stored as its exact
(possibly larger than 999) value. -/
theorem c2_no_saturation (rid sender : String) (linkCost now c : ℚ) (ps : ProcState)
    (destination : String) (info : EntryInfo) (cur : Route)
    (hhd : dictGet ps.hold_down destination = none)
    (hnx : info.next_hop ≠ some rid)
    (hc : info.cost = some c)
    (hcur : dictGet ps.routing_table destination = some cur)
    (htrust : cur.next_hop = sender)
    (hbig : INFINITY ≤ linkCost + c)
    (hne : cur.cost ≠ linkCost + c) :
    processEntry rid sender linkCost now ps destination info
      = .ok { ps with
              routing_table :=
                dictInsert ps.routing_table destination ⟨linkCost + c, cur.next_hop⟩,
              changed := true } := by
  simp [processEntry, hhd, processEntryBody, hnx, hc, hcur, htrust, hne]

/-- Witness for C2's amended theorem at the counterexample's input. -/
theorem c2_witness :
    processEntry "r1" "s" 21 3 ⟨[("d", ⟨50, "s"⟩)], [], false⟩ "d" ⟨some 999, some "s"⟩
      = .ok ⟨[("d", ⟨1020, "s"⟩)], [], true⟩ := by
  have h := c2_no_saturation "r1" "s" 21 3 999 ⟨[("d", ⟨50, "s"⟩)], [], false⟩ "d"
    ⟨some 999, some "s"⟩ ⟨50, "s"⟩ (by with_unfolding_all rfl) (by decide)
    (by with_unfolding_all rfl) (by with_unfolding_all rfl)
    (by with_unfolding_all rfl) (by norm_num [INFINITY]) (by norm_num)
  rw [h]
  norm_num [dictInsert]

-- --- C7 ---

/-- Scenario A configuration at `r1`: the single neighbor `r2` with
latency 10 ms and bandwidth 100 Mbps. -/
def scenACfg : List NeighborConfig :=
  [⟨"r2", "10.0.0.2", 5002, ⟨some 10, some 100⟩⟩]

/-- Router `r1` right after startup in Scenario A. -/
def scenAR1 : RouterState :=
  initState "r1" [("r1", "10.0.1.0/24"), ("r2", "10.0.2.0/24")] scenACfg

/-- The first advertisement `r2` sends to `r1`: its freshly initialised
table passed through split horizon and encoded for the wire. -/
def scenAAdv : List (String × EntryInfo) :=
  encodeTable (buildTableForNeighbor "r2" "r1" (initRoutingTable "r2"))

/-- Router `r1` after processing that advertisement at time 5. -/
def scenAAfter : RouterState :=
  { router_id := "r1", network_map := [("r1", "10.0.1.0/24"), ("r2", "10.0.2.0/24")],
    neighbors := [("r2",
      { ip := "10.0.0.2", port := 5002,
        metrics := ⟨some 10, some 100⟩, last_seen := 5, cost := 41 / 2 })],
    routing_table := [("r1", ⟨0, "r1"⟩), ("r2", ⟨41 / 2, "r2"⟩)],
    hold_down_timers := [], installed_routes := [] }

/-- Counterexample to claim C7: in Scenario A the composite link cost is
10 + 1000/100 + 0.5·1 = 20.5, so after processing r2's first advertisement
r1 maps r2 to cost 20.5, not 21.0. -/
theorem c7_counterexample :
    processIncomingMessage 5 (.update "r2" scenAAdv) scenAR1 = .ok true false scenAAfter
    ∧ dictGet scenAAfter.routing_table "r2" = some ⟨41 / 2, "r2"⟩
    ∧ ((41 : ℚ) / 2) ≠ 21 := by
  refine ⟨by with_unfolding_all rfl, by with_unfolding_all rfl, by norm_num⟩

/-- Claim C7 amended: in Scenario A, after r1 processes r2's first
advertisement, r1's routing table maps r2 to `{cost: 20.5, next_hop: r2}`;
the composite link cost is latency + 1000/bandwidth + 0.5·|neighbors| with
one configured neighbor, i.e. 10 + 10 + 0.5 = 20.5, computed after the
neighbor table is fully populated. -/
theorem c7_two_node_learn :
    (dictGet scenAR1.neighbors "r2").map Neighbor.cost
      = some (calcCompositeCost 1 ⟨some 10, some 100⟩)
    ∧ calcCompositeCost 1 ⟨some 10, some 100⟩ = 10 + 1000 / 100 + 1 * (1 / 2)
    ∧ processIncomingMessage 5 (.update "r2" scenAAdv) scenAR1 = .ok true false scenAAfter
    ∧ dictGet scenAAfter.routing_table "r2" = some ⟨41 / 2, "r2"⟩ := by
  refine ⟨?_, ?_, ?_, ?_⟩ <;> with_unfolding_all rfl

-- --- C3 ---

theorem buildTable_eq (rid nid : String) (rt : List (String × Route)) :
    buildTableForNeighbor rid nid rt =
      rt.map (fun dr =>
        (dr.1, if dr.1 ≠ rid ∧ dr.2.next_hop = nid
               then (⟨INFINITY, dr.2.next_hop⟩ : Route) else dr.2)) := by
  unfold buildTableForNeighbor
  congr 1
  funext dr
  by_cases h : dr.1 ≠ rid ∧ dr.2.next_hop = nid <;> simp [h]

theorem dictGet_buildTable (rid nid : String) (rt : List (String × Route)) (d : String) :
    dictGet (buildTableForNeighbor rid nid rt) d =
      (dictGet rt d).map
        (fun r => if d ≠ rid ∧ r.next_hop = nid then ⟨INFINITY, r.next_hop⟩ else r) := by
  rw [buildTable_eq]
  induction rt with
  | nil => simp [dictGet]
  | cons hd tl ih =>
    obtain ⟨k, r⟩ := hd
    by_cases hk : k = d
    · subst hk
      simp [dictGet]
    · simpa [dictGet, hk] using ih

/-- Claim C3: the advertisement for neighbor `N` contains, for each table
entry, the poisoned pair `(D, INFINITY, next_hop)` when `D ≠ self` and
`next_hop = N`, and the entry verbatim otherwise; the self-route is always
included verbatim; and no destination `D ≠ self` routed through `N`
appears with a finite cost. -/
theorem c3_split_horizon (rid nid : String) (rt : List (String × Route)) (selfRoute : Route)
    (hself : dictGet rt rid = some selfRoute) :
    (∀ d r, dictGet rt d = some r →
        dictGet (buildTableForNeighbor rid nid rt) d =
          some (if d ≠ rid ∧ r.next_hop = nid then ⟨INFINITY, r.next_hop⟩ else r))
    ∧ dictGet (buildTableForNeighbor rid nid rt) rid = some selfRoute
    ∧ (∀ d r, dictGet (buildTableForNeighbor rid nid rt) d = some r →
        d ≠ rid → r.next_hop = nid → ¬ r.cost < INFINITY) := by
  refine ⟨?_, ?_, ?_⟩
  · intro d r h
    rw [dictGet_buildTable, h, Option.map_some']
  · rw [dictGet_buildTable, hself, Option.map_some']
    simp
  · intro d r h hd hnh
    rw [dictGet_buildTable] at h
    cases hr : dictGet rt d with
    | none => rw [hr] at h; simp at h
    | some r0 =>
      rw [hr, Option.map_some', Option.some_inj] at h
      by_cases hcond : d ≠ rid ∧ r0.next_hop = nid
      · rw [if_pos hcond] at h
        subst h
        simp
      · rw [if_neg hcond] at h
        subst h
        exact absurd hnh (fun hn => hcond ⟨hd, hn⟩)

/-- Witness for C3 on a routing table with a self-route, a route through
the addressee `n2` and a route through another neighbor. -/
theorem c3_witness :
    (∀ d r, dictGet [("r1", ⟨0, "r1"⟩), ("a", ⟨7, "n2"⟩), ("b", ⟨9, "n3"⟩)] d = some r →
        dictGet (buildTableForNeighbor "r1" "n2"
            [("r1", ⟨0, "r1"⟩), ("a", ⟨7, "n2"⟩), ("b", ⟨9, "n3"⟩)]) d =
          some (if d ≠ "r1" ∧ r.next_hop = "n2" then ⟨INFINITY, r.next_hop⟩ else r))
    ∧ dictGet (buildTableForNeighbor "r1" "n2"
        [("r1", ⟨0, "r1"⟩), ("a", ⟨7, "n2"⟩), ("b", ⟨9, "n3"⟩)]) "r1" = some ⟨0, "r1"⟩
    ∧ (∀ d r, dictGet (buildTableForNeighbor "r1" "n2"
          [("r1", ⟨0, "r1"⟩), ("a", ⟨7, "n2"⟩), ("b", ⟨9, "n3"⟩)]) d = some r →
        d ≠ "r1" → r.next_hop = "n2" → ¬ r.cost < INFINITY) :=
  c3_split_horizon "r1" "n2" [("r1", ⟨0, "r1"⟩), ("a", ⟨7, "n2"⟩), ("b", ⟨9, "n3"⟩)]
    ⟨0, "r1"⟩ (by with_unfolding_all rfl)

-- --- C4 ---

/-- Claim C4: while a destination's hold-down entry installed at time `t`
is unexpired — at any processing time `tp` with `t ≤ tp < t + 60` — the
per-destination loop skips the destination entirely, leaving the whole
state (in particular the destination's cost) unchanged; once expired, the
entry is evicted and processing continues exactly as it would with the
entry already evicted. -/
theorem c4_hold_down (rid sender : String) (linkCost t tp : ℚ) (ps : ProcState)
    (destination : String) (info : EntryInfo)
    (hhd : dictGet ps.hold_down destination = some t) :
    (t ≤ tp → tp < t + HOLD_DOWN_INTERVAL →
       processEntry rid sender linkCost tp ps destination info = .ok ps)
    ∧ (t + HOLD_DOWN_INTERVAL ≤ tp →
       processEntry rid sender linkCost tp ps destination info =
         processEntry rid sender linkCost tp
           { ps with hold_down := dictDelete ps.hold_down destination } destination info) := by
  constructor
  · intro h1 h2
    have hlt : tp - t < HOLD_DOWN_INTERVAL := by linarith
    simp [processEntry, hhd, hlt]
  · intro h
    have hge : ¬ tp - t < HOLD_DOWN_INTERVAL := by linarith
    simp [processEntry, hhd, hge, dictGet_dictDelete_self]

/-- Witness for C4: a destination poisoned at time 10 is skipped at time
40 and evicted-then-processed at time 70. -/
theorem c4_witness :
    (processEntry "r1" "s" 5 40 ⟨[("d", ⟨999, "s"⟩)], [("d", 10)], false⟩ "d"
        ⟨some 1, some "s"⟩ = .ok ⟨[("d", ⟨999, "s"⟩)], [("d", 10)], false⟩)
    ∧ (processEntry "r1" "s" 5 70 ⟨[("d", ⟨999, "s"⟩)], [("d", 10)], false⟩ "d"
        ⟨some 1, some "s"⟩ =
       processEntry "r1" "s" 5 70
         ⟨[("d", ⟨999, "s"⟩)], dictDelete [("d", 10)] "d", false⟩ "d" ⟨some 1, some "s"⟩) := by
  have h := c4_hold_down "r1" "s" 5 10 40 ⟨[("d", ⟨999, "s"⟩)], [("d", 10)], false⟩ "d"
    ⟨some 1, some "s"⟩ (by with_unfolding_all rfl)
  have h' := c4_hold_down "r1" "s" 5 10 70 ⟨[("d", ⟨999, "s"⟩)], [("d", 10)], false⟩ "d"
    ⟨some 1, some "s"⟩ (by with_unfolding_all rfl)
  exact ⟨h.1 (by norm_num) (by norm_num [HOLD_DOWN_INTERVAL]),
         h'.2 (by norm_num [HOLD_DOWN_INTERVAL])⟩

-- --- C1 ---

theorem processEntryBody_rules (rid sender : String) (linkCost c : ℚ) (ps : ProcState)
    (destination : String) (info : EntryInfo) (cur : Route)
    (hnx : info.next_hop ≠ some rid) (hc : info.cost = some c)
    (hcur : dictGet ps.routing_table destination = some cur) :
    (cur.next_hop = sender →
       ∃ ps', processEntryBody rid sender linkCost ps destination info = .ok ps'
         ∧ dictGet ps'.routing_table destination = some ⟨linkCost + c, sender⟩
         ∧ ps'.changed = (ps.changed || decide (cur.cost ≠ linkCost + c))
         ∧ ∀ q, q ≠ destination → dictGet ps'.routing_table q = dictGet ps.routing_table q)
    ∧ (cur.next_hop ≠ sender →
       (linkCost + c < cur.cost →
          ∃ ps', processEntryBody rid sender linkCost ps destination info = .ok ps'
            ∧ dictGet ps'.routing_table destination = some ⟨linkCost + c, sender⟩
            ∧ ps'.changed = true
            ∧ ∀ q, q ≠ destination → dictGet ps'.routing_table q = dictGet ps.routing_table q)
       ∧ (¬ linkCost + c < cur.cost →
          processEntryBody rid sender linkCost ps destination info = .ok ps)) := by
  constructor
  · intro htr
    subst htr
    by_cases hne : cur.cost ≠ linkCost + c
    · refine ⟨{ ps with
          routing_table :=
            dictInsert ps.routing_table destination ⟨linkCost + c, cur.next_hop⟩,
          changed := true }, ?_, ?_, ?_, ?_⟩
      · simp [processEntryBody, hnx, hc, hcur, hne]
      · exact dictGet_dictInsert_self _ _ _
      · simp [hne]
      · intro q hq
        exact dictGet_dictInsert_ne _ _ _ _ (Ne.symm hq)
    · push_neg at hne
      refine ⟨ps, by simp [processEntryBody, hnx, hc, hcur, hne], ?_, ?_, fun q _ => rfl⟩
      · rw [hcur]
        cases cur
        simp_all
      · simp [hne]
  · intro hntr
    constructor
    · intro hlt
      refine ⟨{ ps with
          routing_table :=
            dictInsert ps.routing_table destination ⟨linkCost + c, sender⟩,
          changed := true }, ?_, ?_, rfl, ?_⟩
      · simp [processEntryBody, hnx, hc, hcur, hntr, hlt]
      · exact dictGet_dictInsert_self _ _ _
      · intro q hq
        exact dictGet_dictInsert_ne _ _ _ _ (Ne.symm hq)
    · intro hge
      simp [processEntryBody, hnx, hc, hcur, hntr, hge]

/-- Claim C1: for an advertised destination that passes the three gates,
with `new_cost = link_cost(sender) + advertised_cost`: if the current
entry's next hop is the sender, its cost is set to `new_cost`
unconditionally (next hop staying `sender`) and the changed flag is raised
exactly when the numeric value differs; if the current entry has a
different next hop, cost and next hop are replaced by
`(new_cost, sender)` if and only if `new_cost` is strictly smaller than
the current cost — an equal cost never switches next hop. -/
theorem c1_update_rules (rid sender : String) (linkCost now c : ℚ) (ps : ProcState)
    (destination : String) (info : EntryInfo) (cur : Route)
    (hhd : dictGet ps.hold_down destination = none ∨
           ∃ t, dictGet ps.hold_down destination = some t ∧ t + HOLD_DOWN_INTERVAL ≤ now)
    (hnx : info.next_hop ≠ some rid) (hc : info.cost = some c)
    (hcur : dictGet ps.routing_table destination = some cur) :
    (cur.next_hop = sender →
       ∃ ps', processEntry rid sender linkCost now ps destination info = .ok ps'
         ∧ dictGet ps'.routing_table destination = some ⟨linkCost + c, sender⟩
         ∧ ps'.changed = (ps.changed || decide (cur.cost ≠ linkCost + c))
         ∧ ∀ q, q ≠ destination → dictGet ps'.routing_table q = dictGet ps.routing_table q)
    ∧ (cur.next_hop ≠ sender →
       (linkCost + c < cur.cost →
          ∃ ps', processEntry rid sender linkCost now ps destination info = .ok ps'
            ∧ dictGet ps'.routing_table destination = some ⟨linkCost + c, sender⟩
            ∧ ps'.changed = true
            ∧ ∀ q, q ≠ destination → dictGet ps'.routing_table q = dictGet ps.routing_table q)
       ∧ (¬ linkCost + c < cur.cost →
          ∃ ps', processEntry rid sender linkCost now ps destination info = .ok ps'
            ∧ ps'.routing_table = ps.routing_table ∧ ps'.changed = ps.changed)) := by
  rcases hhd with hnone | ⟨t, ht, hexp⟩
  · have hred : processEntry rid sender linkCost now ps destination info =
        processEntryBody rid sender linkCost ps destination info := by
      simp [processEntry, hnone]
    have h := processEntryBody_rules rid sender linkCost c ps destination info cur hnx hc hcur
    rw [hred]
    refine ⟨h.1, fun hntr => ⟨(h.2 hntr).1, fun hge => ⟨ps, (h.2 hntr).2 hge, rfl, rfl⟩⟩⟩
  · have hge : ¬ now - t < HOLD_DOWN_INTERVAL := by linarith
    have hred : processEntry rid sender linkCost now ps destination info =
        processEntryBody rid sender linkCost
          { ps with hold_down := dictDelete ps.hold_down destination } destination info := by
      simp [processEntry, ht, hge]
    have h := processEntryBody_rules rid sender linkCost c
      { ps with hold_down := dictDelete ps.hold_down destination } destination info cur
      hnx hc hcur
    rw [hred]
    exact ⟨h.1, fun hntr => ⟨(h.2 hntr).1, fun hge2 =>
      ⟨_, (h.2 hntr).2 hge2, rfl, rfl⟩⟩⟩

/-- Witness for C1: a trusted update (next hop `s`, equal value, no
change flag) and a competing update (tie does not switch next hop). -/
theorem c1_witness :
    (∃ ps', processEntry "r1" "s" 5 0 ⟨[("d", ⟨9, "s"⟩)], [], false⟩ "d"
        ⟨some 4, some "z"⟩ = .ok ps'
      ∧ dictGet ps'.routing_table "d" = some ⟨(5 : ℚ) + 4, "s"⟩
      ∧ ps'.changed = (false || decide ((9 : ℚ) ≠ (5 : ℚ) + 4))
      ∧ ∀ q, q ≠ "d" → dictGet ps'.routing_table q = dictGet [("d", (⟨9, "s"⟩ : Route))] q)
    ∧ (∃ ps', processEntry "r1" "o" 5 0 ⟨[("d", ⟨9, "s"⟩)], [], false⟩ "d"
        ⟨some 4, some "z"⟩ = .ok ps'
      ∧ ps'.routing_table = [("d", (⟨9, "s"⟩ : Route))] ∧ ps'.changed = false) := by
  have h1 := c1_update_rules "r1" "s" 5 0 4 ⟨[("d", ⟨9, "s"⟩)], [], false⟩ "d"
    ⟨some 4, some "z"⟩ ⟨9, "s"⟩ (Or.inl (by with_unfolding_all rfl)) (by decide)
    (by with_unfolding_all rfl) (by with_unfolding_all rfl)
  have h2 := c1_update_rules "r1" "o" 5 0 4 ⟨[("d", ⟨9, "s"⟩)], [], false⟩ "d"
    ⟨some 4, some "z"⟩ ⟨9, "s"⟩ (Or.inl (by with_unfolding_all rfl)) (by decide)
    (by with_unfolding_all rfl) (by with_unfolding_all rfl)
  exact ⟨h1.1 (by with_unfolding_all rfl),
         (h2.2 (by decide)).2 (by norm_num)⟩

-- --- C5 ---

theorem poisonRoutes_rt_lookup (nid : String) (now : ℚ) (rt : List (String × Route))
    (hd : List (String × ℚ)) (ch : Bool) (d : String) :
    dictGet (poisonRoutes nid now rt hd ch).1 d =
      (dictGet rt d).map
        (fun r => if r.next_hop = nid ∧ r.cost < INFINITY then ⟨INFINITY, r.next_hop⟩ else r) := by
  induction rt generalizing hd ch with
  | nil => simp [poisonRoutes, dictGet]
  | cons e tl ih =>
    obtain ⟨k, r⟩ := e
    by_cases hcond : r.next_hop = nid ∧ r.cost < INFINITY <;>
      by_cases hk : k = d <;>
        simp [poisonRoutes, dictGet, hcond, hk, ih]

theorem poisonRoutes_hd_preserve (nid : String) (now : ℚ) (rt : List (String × Route))
    (hd : List (String × ℚ)) (ch : Bool) (q : String) (h : dictGet hd q = some now) :
    dictGet (poisonRoutes nid now rt hd ch).2.1 q = some now := by
  induction rt generalizing hd ch with
  | nil => simpa [poisonRoutes]
  | cons e tl ih =>
    obtain ⟨k, r⟩ := e
    by_cases hcond : r.next_hop = nid ∧ r.cost < INFINITY
    · simp only [poisonRoutes, hcond, if_pos]
      apply ih
      by_cases hk : k = q
      · subst hk
        exact dictGet_dictInsert_self _ _ _
      · rw [dictGet_dictInsert_ne _ _ _ _ hk]
        exact h
    · simp only [poisonRoutes, hcond, if_neg, not_false_iff]
      exact ih _ _ h

theorem poisonRoutes_hd_set (nid : String) (now : ℚ) (rt : List (String × Route))
    (hd : List (String × ℚ)) (ch : Bool) (d : String) (r : Route)
    (hmem : dictGet rt d = some r) (hm : r.next_hop = nid) (hcost : r.cost < INFINITY) :
    dictGet (poisonRoutes nid now rt hd ch).2.1 d = some now := by
  induction rt generalizing hd ch with
  | nil => simp [dictGet] at hmem
  | cons e tl ih =>
    obtain ⟨k, r'⟩ := e
    by_cases hk : k = d
    · subst hk
      simp [dictGet] at hmem
      subst hmem
      have hcond : r'.next_hop = nid ∧ r'.cost < INFINITY := ⟨hm, hcost⟩
      simp only [poisonRoutes, hcond, if_pos]
      exact poisonRoutes_hd_preserve _ _ _ _ _ _ (dictGet_dictInsert_self _ _ _)
    · simp [dictGet, hk] at hmem
      by_cases hcond : r'.next_hop = nid ∧ r'.cost < INFINITY <;>
        simp [poisonRoutes, hcond] <;>
          exact ih _ _ hmem

theorem poisonRoutes_changed (nid : String) (now : ℚ) (rt : List (String × Route))
    (hd : List (String × ℚ)) (ch : Bool) :
    (poisonRoutes nid now rt hd ch).2.2 =
      (ch || rt.any fun dr => decide (dr.2.next_hop = nid ∧ dr.2.cost < INFINITY)) := by
  induction rt generalizing hd ch with
  | nil => simp [poisonRoutes]
  | cons e tl ih =>
    obtain ⟨k, r⟩ := e
    by_cases hcond : r.next_hop = nid ∧ r.cost < INFINITY
    · simp [poisonRoutes, hcond, ih, hcond.1, hcond.2]
    · have hfalse : (decide (r.next_hop = nid) && decide (r.cost < INFINITY)) = false := by
        rcases not_and_or.mp hcond with h | h <;> simp [h]
      simp [poisonRoutes, hcond, ih, hfalse]

/-- Claim C5: for a neighbor with `last_seen > 0` silent for longer than
`TIMEOUT_INTERVAL`, the scan poisons exactly the still-finite routes
through it (cost set to INFINITY, next hop preserved, all other routes
verbatim), installs a hold-down entry stamped with the poisoning time
`now` (which the hold-down gate expires at `now + HOLD_DOWN_INTERVAL`) for
each poisoned destination, reports the table changed exactly when some
route was poisoned, and resets `last_seen` to 0; a neighbor with
`last_seen = 0` is never timed out. -/
theorem c5_neighbor_timeout (now : ℚ) (nid : String) (nb : Neighbor)
    (rt : List (String × Route)) (hd : List (String × ℚ)) (ch : Bool) :
    (nb.last_seen > 0 → now - nb.last_seen > TIMEOUT_INTERVAL →
       (timeoutOne now nid nb rt hd ch).1.last_seen = 0
       ∧ (∀ d r, dictGet rt d = some r →
            dictGet (timeoutOne now nid nb rt hd ch).2.1 d =
              some (if r.next_hop = nid ∧ r.cost < INFINITY
                    then ⟨INFINITY, r.next_hop⟩ else r))
       ∧ (∀ d r, dictGet rt d = some r → r.next_hop = nid → r.cost < INFINITY →
            dictGet (timeoutOne now nid nb rt hd ch).2.2.1 d = some now)
       ∧ (timeoutOne now nid nb rt hd ch).2.2.2 =
           (ch || rt.any fun dr => decide (dr.2.next_hop = nid ∧ dr.2.cost < INFINITY)))
    ∧ (nb.last_seen = 0 → timeoutOne now nid nb rt hd ch = (nb, rt, hd, ch)) := by
  constructor
  · intro h1 h2
    have hcond : nb.last_seen > 0 ∧ now - nb.last_seen > TIMEOUT_INTERVAL := ⟨h1, h2⟩
    refine ⟨?_, ?_, ?_, ?_⟩
    · simp [timeoutOne, hcond]
    · intro d r hmem
      simp only [timeoutOne, hcond, and_self, if_pos]
      rw [poisonRoutes_rt_lookup, hmem, Option.map_some']
    · intro d r hmem hm hcost
      simp only [timeoutOne, hcond, and_self, if_pos]
      exact poisonRoutes_hd_set _ _ _ _ _ _ _ hmem hm hcost
    · simp only [timeoutOne, hcond, and_self, if_pos]
      exact poisonRoutes_changed _ _ _ _ _
  · intro h0
    simp [timeoutOne, h0]

/-- Witness for C5: neighbor `n` last heard at 50 is timed out at 100;
its route to `d` is poisoned, hold-down stamped 100, table changed; and a
never-heard neighbor is left alone. -/
theorem c5_witness :
    ((timeoutOne 100 "n" { exNeighbor with last_seen := 50 }
        [("d", ⟨7, "n"⟩)] [] false).1.last_seen = 0
     ∧ dictGet (timeoutOne 100 "n" { exNeighbor with last_seen := 50 }
        [("d", ⟨7, "n"⟩)] [] false).2.1 "d" = some ⟨INFINITY, "n"⟩
     ∧ dictGet (timeoutOne 100 "n" { exNeighbor with last_seen := 50 }
        [("d", ⟨7, "n"⟩)] [] false).2.2.1 "d" = some 100
     ∧ (timeoutOne 100 "n" { exNeighbor with last_seen := 50 }
        [("d", ⟨7, "n"⟩)] [] false).2.2.2 = true)
    ∧ timeoutOne 100 "n" exNeighbor [("d", ⟨7, "n"⟩)] [] false
        = (exNeighbor, [("d", ⟨7, "n"⟩)], [], false) := by
  have h := c5_neighbor_timeout 100 "n" { exNeighbor with last_seen := 50 }
    [("d", ⟨7, "n"⟩)] [] false
  have h2 := c5_neighbor_timeout 100 "n" exNeighbor [("d", ⟨7, "n"⟩)] [] false
  have hfire := h.1 (by norm_num [exNeighbor]) (by norm_num [exNeighbor, TIMEOUT_INTERVAL])
  refine ⟨⟨hfire.1, ?_, ?_, ?_⟩, h2.2 (by with_unfolding_all rfl)⟩
  · have := hfire.2.1 "d" ⟨7, "n"⟩ (by with_unfolding_all rfl)
    rw [this]
    norm_num [INFINITY]
  · exact hfire.2.2.1 "d" ⟨7, "n"⟩ (by with_unfolding_all rfl) rfl
      (by norm_num [INFINITY])
  · rw [hfire.2.2.2]
    with_unfolding_all rfl

-- --- C6 ---

/-- The self-route invariant: the router's own identifier maps to the
route `{cost: 0, next_hop: self}` and no other destination's route has
`next_hop = self`. -/
def selfRouteOK (rid : String) (rt : List (String × Route)) : Prop :=
  dictGet rt rid = some ⟨0, rid⟩
  ∧ ∀ d r, dictGet rt d = some r → r.next_hop = rid → d = rid

/-- A payload entry is well-formed with a non-negative advertised cost. -/
def entryOkB (e : String × EntryInfo) : Bool :=
  match e.2.cost with
  | none => false
  | some c => decide (0 ≤ c)

theorem selfRouteOK_insert (rid dest : String) (v : Route) (rt : List (String × Route))
    (hinv : selfRouteOK rid rt) (hdest : dest ≠ rid) (hv : v.next_hop ≠ rid) :
    selfRouteOK rid (dictInsert rt dest v) := by
  constructor
  · rw [dictGet_dictInsert_ne _ _ _ _ hdest]
    exact hinv.1
  · intro d r h hnh
    by_cases hd : d = dest
    · subst hd
      rw [dictGet_dictInsert_self] at h
      cases Option.some_inj.mp h
      exact absurd hnh hv
    · rw [dictGet_dictInsert_ne _ _ _ _ (fun he => hd he.symm)] at h
      exact hinv.2 d r h hnh

theorem processEntryBody_selfOK (rid sender : String) (linkCost c : ℚ) (ps : ProcState)
    (destination : String) (info : EntryInfo)
    (hs : sender ≠ rid) (hl : 0 ≤ linkCost)
    (hc : info.cost = some c) (hcpos : 0 ≤ c)
    (hinv : selfRouteOK rid ps.routing_table) :
    ∃ ps', processEntryBody rid sender linkCost ps destination info = .ok ps'
      ∧ selfRouteOK rid ps'.routing_table := by
  by_cases hnx : info.next_hop = some rid
  · exact ⟨ps, by simp [processEntryBody, hnx], hinv⟩
  · cases hcur : dictGet ps.routing_table destination with
    | none =>
      have hdest : destination ≠ rid := by
        intro he
        subst he
        rw [hinv.1] at hcur
        cases hcur
      by_cases hlt : linkCost + c < INFINITY
      · refine ⟨{ ps with
            routing_table :=
              dictInsert ps.routing_table destination ⟨linkCost + c, sender⟩,
            changed := true }, by simp [processEntryBody, hnx, hc, hcur, hlt], ?_⟩
        exact selfRouteOK_insert rid destination ⟨linkCost + c, sender⟩ ps.routing_table
          hinv hdest hs
      · exact ⟨ps, by simp [processEntryBody, hnx, hc, hcur, hlt], hinv⟩
    | some cur =>
      by_cases htr : cur.next_hop = sender
      · have hdest : destination ≠ rid := by
          intro he
          subst he
          rw [hinv.1] at hcur
          cases Option.some_inj.mp hcur
          exact hs htr.symm
        by_cases hne : cur.cost ≠ linkCost + c
        · refine ⟨{ ps with
              routing_table :=
                dictInsert ps.routing_table destination ⟨linkCost + c, cur.next_hop⟩,
              changed := true }, by simp [processEntryBody, hnx, hc, hcur, htr, hne], ?_⟩
          refine selfRouteOK_insert rid destination ⟨linkCost + c, cur.next_hop⟩
            ps.routing_table hinv hdest ?_
          rw [htr]
          exact hs
        · exact ⟨ps, by simp [processEntryBody, hnx, hc, hcur, htr, hne], hinv⟩
      · by_cases hlt : linkCost + c < cur.cost
        · have hdest : destination ≠ rid := by
            intro he
            subst he
            rw [hinv.1] at hcur
            cases Option.some_inj.mp hcur
            have : (0 : ℚ) ≤ linkCost + c := add_nonneg hl hcpos
            simp at hlt
            linarith
          refine ⟨{ ps with
              routing_table :=
                dictInsert ps.routing_table destination ⟨linkCost + c, sender⟩,
              changed := true }, by simp [processEntryBody, hnx, hc, hcur, htr, hlt], ?_⟩
          exact selfRouteOK_insert rid destination ⟨linkCost + c, sender⟩ ps.routing_table
            hinv hdest hs
        · exact ⟨ps, by simp [processEntryBody, hnx, hc, hcur, htr, hlt], hinv⟩

theorem processEntry_selfOK (rid sender : String) (linkCost now : ℚ) (ps : ProcState)
    (destination : String) (info : EntryInfo)
    (hs : sender ≠ rid) (hl : 0 ≤ linkCost)
    (hwfE : entryOkB (destination, info) = true)
    (hinv : selfRouteOK rid ps.routing_table) :
    ∃ ps', processEntry rid sender linkCost now ps destination info = .ok ps'
      ∧ selfRouteOK rid ps'.routing_table := by
  obtain ⟨c, hc, hcpos⟩ : ∃ c, info.cost = some c ∧ 0 ≤ c := by
    unfold entryOkB at hwfE
    cases hco : info.cost with
    | none => rw [hco] at hwfE; cases hwfE
    | some c =>
      rw [hco] at hwfE
      exact ⟨c, rfl, of_decide_eq_true hwfE⟩
  cases hhd : dictGet ps.hold_down destination with
  | some t =>
    by_cases hlt : now - t < HOLD_DOWN_INTERVAL
    · exact ⟨ps, by simp [processEntry, hhd, hlt], hinv⟩
    · obtain ⟨ps', heq, hinv'⟩ := processEntryBody_selfOK rid sender linkCost c
        { ps with hold_down := dictDelete ps.hold_down destination } destination info
        hs hl hc hcpos hinv
      exact ⟨ps', by simp [processEntry, hhd, hlt, heq], hinv'⟩
  | none =>
    obtain ⟨ps', heq, hinv'⟩ := processEntryBody_selfOK rid sender linkCost c ps
      destination info hs hl hc hcpos hinv
    exact ⟨ps', by simp [processEntry, hhd, heq], hinv'⟩

theorem processEntries_selfOK (rid sender : String) (linkCost now : ℚ)
    (table : List (String × EntryInfo)) (ps : ProcState)
    (hs : sender ≠ rid) (hl : 0 ≤ linkCost)
    (hwf : ∀ e ∈ table, entryOkB e = true)
    (hinv : selfRouteOK rid ps.routing_table) :
    ∃ ps', processEntries rid sender linkCost now ps table = .ok ps'
      ∧ selfRouteOK rid ps'.routing_table := by
  induction table generalizing ps with
  | nil => exact ⟨ps, rfl, hinv⟩
  | cons e rest ih =>
    obtain ⟨d, info⟩ := e
    obtain ⟨ps1, heq, hinv1⟩ := processEntry_selfOK rid sender linkCost now ps d info
      hs hl (hwf (d, info) (List.mem_cons_self _ _)) hinv
    obtain ⟨ps', heq', hinv'⟩ := ih ps1 (fun e he => hwf e (List.mem_cons_of_mem _ he)) hinv1
    exact ⟨ps', by simp [processEntries, heq, heq'], hinv'⟩

theorem poisonRoutes_selfOK (rid nid : String) (now : ℚ) (rt : List (String × Route))
    (hd : List (String × ℚ)) (ch : Bool) (hne : nid ≠ rid)
    (hinv : selfRouteOK rid rt) : selfRouteOK rid (poisonRoutes nid now rt hd ch).1 := by
  constructor
  · rw [poisonRoutes_rt_lookup, hinv.1, Option.map_some']
    have : ¬((⟨0, rid⟩ : Route).next_hop = nid ∧ (⟨0, rid⟩ : Route).cost < INFINITY) := by
      intro h
      exact hne h.1.symm
    rw [if_neg this]
  · intro d r h hnh
    rw [poisonRoutes_rt_lookup] at h
    cases hr : dictGet rt d with
    | none => rw [hr] at h; cases h
    | some r0 =>
      rw [hr, Option.map_some', Option.some_inj] at h
      have hnh0 : r0.next_hop = rid := by
        by_cases hcond : r0.next_hop = nid ∧ r0.cost < INFINITY
        · rw [if_pos hcond] at h
          subst h
          exact hnh
        · rw [if_neg hcond] at h
          subst h
          exact hnh
      exact hinv.2 d r0 hr hnh0

theorem timeoutScan_selfOK (rid : String) (now : ℚ) (nbrs : List (String × Neighbor))
    (rt : List (String × Route)) (hd : List (String × ℚ)) (ch : Bool)
    (hnbr : ∀ x ∈ nbrs, x.1 ≠ rid) (hinv : selfRouteOK rid rt) :
    selfRouteOK rid (timeoutScan now nbrs rt hd ch).2.1 := by
  induction nbrs generalizing rt hd ch with
  | nil => simpa [timeoutScan]
  | cons e rest ih =>
    obtain ⟨nid, nb⟩ := e
    have hone : selfRouteOK rid (timeoutOne now nid nb rt hd ch).2.1 := by
      unfold timeoutOne
      by_cases hcond : nb.last_seen > 0 ∧ now - nb.last_seen > TIMEOUT_INTERVAL
      · simp only [hcond, and_self, if_pos]
        exact poisonRoutes_selfOK rid nid now rt hd ch
          (hnbr (nid, nb) (List.mem_cons_self _ _)) hinv
      · simp only [hcond, if_neg, not_false_iff]
        exact hinv
    simpa [timeoutScan] using
      ih _ _ _ (fun x hx => hnbr x (List.mem_cons_of_mem _ hx)) hone

/-- Claim C6: the initial routing table satisfies the self-route invariant
(exactly one route has `next_hop = self`, with cost 0); processing any
well-formed inbound update with non-negative advertised costs from a
sender other than the router itself preserves it — in particular the
self-route entry is never mutated — and so does the neighbor-timeout
scan. -/
theorem c6_self_route_invariant (s : RouterState) (sender : String)
    (table : List (String × EntryInfo)) (now : ℚ)
    (hs : sender ≠ s.router_id)
    (hnb : ∀ x ∈ s.neighbors, 0 ≤ x.2.cost)
    (hnself : ∀ x ∈ s.neighbors, x.1 ≠ s.router_id)
    (hwf : ∀ e ∈ table, entryOkB e = true) :
    selfRouteOK s.router_id (initRoutingTable s.router_id)
    ∧ (selfRouteOK s.router_id s.routing_table →
        (∃ ch s', processIncomingMessage now (.update sender table) s = .ok ch false s'
           ∧ selfRouteOK s.router_id s'.routing_table)
        ∧ selfRouteOK s.router_id (checkNeighborTimeouts now s).2.routing_table) := by
  constructor
  · constructor
    · simp [initRoutingTable, dictGet]
    · intro d r h _
      unfold initRoutingTable dictGet at h
      split at h
      · cc
      · cases h
  · intro hinv
    constructor
    · cases hnbone : dictGet s.neighbors sender with
      | none => exact ⟨false, s, by simp [processIncomingMessage, hnbone], hinv⟩
      | some nb =>
        have hcost : 0 ≤ nb.cost := hnb (sender, nb) (dictGet_mem hnbone)
        obtain ⟨ps', heq, hinv'⟩ := processEntries_selfOK s.router_id sender nb.cost now
          table ⟨s.routing_table, s.hold_down_timers, false⟩ hs hcost hwf hinv
        refine ⟨ps'.changed,
          { s with neighbors := dictInsert s.neighbors sender { nb with last_seen := now },
                   routing_table := ps'.routing_table,
                   hold_down_timers := ps'.hold_down }, ?_, hinv'⟩
        simp [processIncomingMessage, hnbone, heq]
    · exact timeoutScan_selfOK s.router_id now s.neighbors s.routing_table
        s.hold_down_timers false hnself hinv

/-- Witness for C6 at a concrete state with one neighbor `n` and a
well-formed update. -/
theorem c6_witness :
    selfRouteOK "r1" (initRoutingTable "r1")
    ∧ (∃ ch s', processIncomingMessage 9 (.update "n" [("a", ⟨some 3, some "n"⟩)]) exState
          = .ok ch false s'
        ∧ selfRouteOK "r1" s'.routing_table)
    ∧ selfRouteOK "r1" (checkNeighborTimeouts 9 exState).2.routing_table := by
  have h := c6_self_route_invariant exState "n" [("a", ⟨some 3, some "n"⟩)] 9
    (by decide)
    (by
      intro x hx
      simp [exState] at hx
      subst hx
      norm_num [exNeighbor])
    (by
      intro x hx
      simp [exState] at hx
      subst hx
      decide)
    (by
      intro e he
      simp at he
      subst he
      norm_num [entryOkB])
  have hinv : selfRouteOK "r1" exState.routing_table := h.1
  exact ⟨h.1, (h.2 hinv).1, (h.2 hinv).2⟩

-- --- C8 ---

/-- What one main-loop iteration of `sync_os_routes` does to the shadow
map, as a function of the routing-table entry alone: `none` when the entry
is skipped, `some (pfx, none)` when the prefix must end up absent
(poisoned route), `some (pfx, some ip)` when it must end up mapped to the
next hop's address. -/
def entryAction (rid : String) (nm : List (String × String))
    (nbrs : List (String × Neighbor)) (e : String × Route) :
    Option (String × Option String) :=
  if e.1 = rid then none
  else
    match dictGet nm e.1 with
    | none => none
    | some pfx =>
      if pfx = "" then none
      else if INFINITY ≤ e.2.cost then some (pfx, none)
      else
        match dictGet nbrs e.2.next_hop with
        | none => none
        | some nb => if nb.ip = "" then none else some (pfx, some nb.ip)

theorem syncStep_spec (rid : String) (nm : List (String × String))
    (nbrs : List (String × Neighbor)) (acc : List Intent × List (String × String))
    (e : String × Route) :
    syncStep rid nm nbrs acc e =
      match entryAction rid nm nbrs e with
      | none => acc
      | some (pfx, none) =>
          if (dictGet acc.2 pfx).isSome then (acc.1 ++ [.remove pfx], dictDelete acc.2 pfx)
          else acc
      | some (pfx, some ip) =>
          if dictGet acc.2 pfx ≠ some ip then (acc.1 ++ [.add pfx ip], dictInsert acc.2 pfx ip)
          else acc := by
  unfold syncStep entryAction
  by_cases h1 : e.1 = rid
  · simp [h1]
  · simp only [h1, if_neg, not_false_iff, ite_false]
    cases hget : dictGet nm e.1 with
    | none => simp
    | some p =>
      by_cases h2 : p = ""
      · simp [h2]
      · by_cases h3 : INFINITY ≤ e.2.cost
        · simp [h2, h3]
        · cases hnb : dictGet nbrs e.2.next_hop with
          | none => simp [h2, h3]
          | some nb => by_cases h4 : nb.ip = "" <;> simp [h2, h3, h4]

theorem entryAction_inv (rid : String) (nm : List (String × String))
    (nbrs : List (String × Neighbor)) (e : String × Route) (pfx : String)
    (a : Option String) (h : entryAction rid nm nbrs e = some (pfx, a)) :
    dictGet nm e.1 = some pfx ∧ (a ≠ none → e.2.cost < INFINITY) := by
  unfold entryAction at h
  split at h
  · simp at h
  · split at h
    · simp at h
    · rename_i p hget
      split at h
      · simp at h
      · rename_i h2
        split at h
        · rename_i h3
          injection h with hpa
          injection hpa with hp ha
          subst hp
          subst ha
          exact ⟨hget, fun hk => absurd rfl hk⟩
        · rename_i h3
          split at h
          · simp at h
          · rename_i nb hnb
            split at h
            · simp at h
            · injection h with hpa
              injection hpa with hp ha
              subst hp
              subst ha
              exact ⟨hget, fun _ => not_le.mp h3⟩

theorem syncStep_none (rid : String) (nm : List (String × String))
    (nbrs : List (String × Neighbor)) (acc : List Intent × List (String × String))
    (e : String × Route) (h : entryAction rid nm nbrs e = none) :
    syncStep rid nm nbrs acc e = acc := by
  rw [syncStep_spec, h]

theorem syncStep_settled (rid : String) (nm : List (String × String))
    (nbrs : List (String × Neighbor)) (acc : List Intent × List (String × String))
    (e : String × Route) (pfx : String) (a : Option String)
    (h : entryAction rid nm nbrs e = some (pfx, a)) (hs : dictGet acc.2 pfx = a) :
    syncStep rid nm nbrs acc e = acc := by
  rw [syncStep_spec, h]
  cases a with
  | none => simp [hs]
  | some ip => simp [hs]

theorem syncStep_progress (rid : String) (nm : List (String × String))
    (nbrs : List (String × Neighbor)) (acc : List Intent × List (String × String))
    (e : String × Route) (pfx : String) (a : Option String)
    (h : entryAction rid nm nbrs e = some (pfx, a)) :
    dictGet (syncStep rid nm nbrs acc e).2 pfx = a := by
  cases a with
  | none =>
    rw [syncStep_spec, h]
    show dictGet (if (dictGet acc.2 pfx).isSome then
        (acc.1 ++ [Intent.remove pfx], dictDelete acc.2 pfx) else acc).2 pfx = none
    by_cases hmem : (dictGet acc.2 pfx).isSome
    · rw [if_pos hmem]
      exact dictGet_dictDelete_self _ _
    · rw [if_neg hmem]
      exact Option.not_isSome_iff_eq_none.mp hmem
  | some ip =>
    rw [syncStep_spec, h]
    show dictGet (if dictGet acc.2 pfx ≠ some ip then
        (acc.1 ++ [Intent.add pfx ip], dictInsert acc.2 pfx ip) else acc).2 pfx = some ip
    by_cases hne : dictGet acc.2 pfx ≠ some ip
    · rw [if_pos hne]
      exact dictGet_dictInsert_self _ _ _
    · rw [if_neg hne]
      exact not_not.mp hne

theorem syncStep_frame (rid : String) (nm : List (String × String))
    (nbrs : List (String × Neighbor)) (acc : List Intent × List (String × String))
    (e : String × Route) (q : String)
    (h : ∀ pfx a, entryAction rid nm nbrs e = some (pfx, a) → q ≠ pfx) :
    dictGet (syncStep rid nm nbrs acc e).2 q = dictGet acc.2 q := by
  cases hact : entryAction rid nm nbrs e with
  | none => rw [syncStep_none rid nm nbrs acc e hact]
  | some pa =>
    obtain ⟨pfx, a⟩ := pa
    have hq : q ≠ pfx := h pfx a hact
    cases a with
    | none =>
      rw [syncStep_spec, hact]
      show dictGet (if (dictGet acc.2 pfx).isSome then
          (acc.1 ++ [Intent.remove pfx], dictDelete acc.2 pfx) else acc).2 q = dictGet acc.2 q
      by_cases hmem : (dictGet acc.2 pfx).isSome
      · rw [if_pos hmem]
        exact dictGet_dictDelete_ne _ _ _ (fun he => hq he.symm)
      · rw [if_neg hmem]
    | some ip =>
      rw [syncStep_spec, hact]
      show dictGet (if dictGet acc.2 pfx ≠ some ip then
          (acc.1 ++ [Intent.add pfx ip], dictInsert acc.2 pfx ip) else acc).2 q = dictGet acc.2 q
      by_cases hne : dictGet acc.2 pfx ≠ some ip
      · rw [if_pos hne]
        exact dictGet_dictInsert_ne _ _ _ _ (fun he => hq he.symm)
      · rw [if_neg hne]

theorem syncFold_frame (rid : String) (nm : List (String × String))
    (nbrs : List (String × Neighbor)) (es : List (String × Route))
    (acc : List Intent × List (String × String)) (q : String)
    (h : ∀ e ∈ es, ∀ pfx a, entryAction rid nm nbrs e = some (pfx, a) → q ≠ pfx) :
    dictGet (es.foldl (syncStep rid nm nbrs) acc).2 q = dictGet acc.2 q := by
  induction es generalizing acc with
  | nil => rfl
  | cons e rest ih =>
    rw [List.foldl_cons]
    rw [ih _ (fun e' he' => h e' (List.mem_cons_of_mem _ he'))]
    exact syncStep_frame rid nm nbrs acc e q (h e (List.mem_cons_self _ _))

theorem syncFold_settles (rid : String) (nm : List (String × String))
    (nbrs : List (String × Neighbor)) (es : List (String × Route))
    (acc : List Intent × List (String × String))
    (hpw : es.Pairwise (fun e1 e2 => ∀ p1 a1 p2 a2,
      entryAction rid nm nbrs e1 = some (p1, a1) →
      entryAction rid nm nbrs e2 = some (p2, a2) → p1 ≠ p2)) :
    ∀ e ∈ es, ∀ pfx a, entryAction rid nm nbrs e = some (pfx, a) →
      dictGet (es.foldl (syncStep rid nm nbrs) acc).2 pfx = a := by
  induction es generalizing acc with
  | nil => intro e he; cases he
  | cons e0 rest ih =>
    rcases List.pairwise_cons.mp hpw with ⟨hhead, hrest⟩
    intro e he pfx a hact
    rcases List.mem_cons.mp he with rfl | hmem
    · rw [List.foldl_cons]
      rw [syncFold_frame rid nm nbrs rest _ pfx
        (fun e' he' p' a' hact' => hhead e' he' pfx a p' a' hact hact')]
      exact syncStep_progress rid nm nbrs acc e pfx a hact
    · rw [List.foldl_cons]
      exact ih _ hrest e hmem pfx a hact

theorem syncFold_noop (rid : String) (nm : List (String × String))
    (nbrs : List (String × Neighbor)) (es : List (String × Route))
    (ints : List Intent) (m : List (String × String))
    (h : ∀ e ∈ es, ∀ pfx a, entryAction rid nm nbrs e = some (pfx, a) →
      dictGet m pfx = a) :
    es.foldl (syncStep rid nm nbrs) (ints, m) = (ints, m) := by
  induction es with
  | nil => rfl
  | cons e rest ih =>
    rw [List.foldl_cons]
    have hstep : syncStep rid nm nbrs (ints, m) e = (ints, m) := by
      cases hact : entryAction rid nm nbrs e with
      | none => exact syncStep_none rid nm nbrs _ e hact
      | some pa =>
        obtain ⟨pfx, a⟩ := pa
        exact syncStep_settled rid nm nbrs _ e pfx a hact
          (h e (List.mem_cons_self _ _) pfx a hact)
    rw [hstep]
    exact ih (fun e' he' => h e' (List.mem_cons_of_mem _ he'))

theorem cleanupFold_frame_valid (valid : List (Option String)) (ks : List String)
    (acc : List Intent × List (String × String)) (q : String) (hq : some q ∈ valid) :
    dictGet (ks.foldl (cleanupStep valid) acc).2 q = dictGet acc.2 q := by
  induction ks generalizing acc with
  | nil => rfl
  | cons p rest ih =>
    rw [List.foldl_cons, ih]
    unfold cleanupStep
    by_cases hp : some p ∈ valid
    · simp [hp]
    · simp only [hp, if_neg, not_false_iff]
      exact dictGet_dictDelete_ne _ _ _ (fun he => hp (he ▸ hq))

theorem cleanupFold_none (valid : List (Option String)) (ks : List String)
    (acc : List Intent × List (String × String)) (q : String)
    (hq : dictGet acc.2 q = none) :
    dictGet (ks.foldl (cleanupStep valid) acc).2 q = none := by
  induction ks generalizing acc with
  | nil => exact hq
  | cons p rest ih =>
    rw [List.foldl_cons]
    apply ih
    unfold cleanupStep
    by_cases hp : some p ∈ valid
    · simpa [hp] using hq
    · simp only [hp, if_neg, not_false_iff]
      by_cases hpq : p = q
      · subst hpq
        exact dictGet_dictDelete_self _ _
      · rw [dictGet_dictDelete_ne _ _ _ hpq]
        exact hq

theorem cleanupFold_valid_keys (valid : List (Option String)) (ks : List String)
    (acc : List Intent × List (String × String)) :
    ∀ q ∈ ks, dictGet (ks.foldl (cleanupStep valid) acc).2 q ≠ none → some q ∈ valid := by
  induction ks generalizing acc with
  | nil => intro q hq; cases hq
  | cons p rest ih =>
    intro q hq hne
    rcases List.mem_cons.mp hq with rfl | hmem
    · by_cases hp : some q ∈ valid
      · exact hp
      · exfalso
        apply hne
        rw [List.foldl_cons]
        apply cleanupFold_none
        unfold cleanupStep
        simp only [hp, if_neg, not_false_iff]
        exact dictGet_dictDelete_self _ _
    · rw [List.foldl_cons] at hne
      exact ih _ q hmem hne

theorem cleanupFold_noop (valid : List (Option String)) (ks : List String)
    (acc : List Intent × List (String × String)) (h : ∀ q ∈ ks, some q ∈ valid) :
    ks.foldl (cleanupStep valid) acc = acc := by
  induction ks with
  | nil => rfl
  | cons p rest ih =>
    rw [List.foldl_cons]
    have : cleanupStep valid acc p = acc := by
      unfold cleanupStep
      simp [h p (List.mem_cons_self _ _)]
    rw [this]
    exact ih (fun q hq => h q (List.mem_cons_of_mem _ hq))

theorem mem_validPfxs (nm : List (String × String)) (rt : List (String × Route))
    (e : String × Route) (he : e ∈ rt) (hc : e.2.cost < INFINITY) :
    dictGet nm e.1 ∈ validPfxs nm rt := by
  unfold validPfxs
  exact List.mem_map_of_mem _ (List.mem_filter.mpr ⟨he, by simpa using hc⟩)

/-- A reconciliation pass is a no-op when the shadow map already settles
every entry's action and contains only prefixes of finite-cost
destinations. -/
theorem syncOs_noop_of (rid : String) (nm : List (String × String))
    (nbrs : List (String × Neighbor)) (rt : List (String × Route))
    (m : List (String × String))
    (hset : ∀ e ∈ rt, ∀ pfx a, entryAction rid nm nbrs e = some (pfx, a) →
      dictGet m pfx = a)
    (hval : ∀ q, dictGet m q ≠ none → some q ∈ validPfxs nm rt) :
    syncOsRoutes rid nm nbrs rt m = ([], m) := by
  have hmain : rt.foldl (syncStep rid nm nbrs) ([], m) = ([], m) :=
    syncFold_noop rid nm nbrs rt [] m hset
  show (dictKeys (rt.foldl (syncStep rid nm nbrs) ([], m)).2).foldl
      (cleanupStep (validPfxs nm rt)) (rt.foldl (syncStep rid nm nbrs) ([], m)) = ([], m)
  rw [hmain]
  exact cleanupFold_noop (validPfxs nm rt) (dictKeys m) ([], m)
    (fun q hq => hval q ((dictGet_ne_none_iff_mem_keys m q).mpr hq))

/-- One reconciliation pass establishes the conditions under which a pass
is a no-op. -/
theorem syncOs_establishes (rid : String) (nm : List (String × String))
    (nbrs : List (String × Neighbor)) (rt : List (String × Route))
    (inst : List (String × String))
    (hpw : rt.Pairwise (fun e1 e2 => ∀ p1 a1 p2 a2,
      entryAction rid nm nbrs e1 = some (p1, a1) →
      entryAction rid nm nbrs e2 = some (p2, a2) → p1 ≠ p2)) :
    (∀ e ∈ rt, ∀ pfx a, entryAction rid nm nbrs e = some (pfx, a) →
       dictGet (syncOsRoutes rid nm nbrs rt inst).2 pfx = a)
    ∧ (∀ q, dictGet (syncOsRoutes rid nm nbrs rt inst).2 q ≠ none →
       some q ∈ validPfxs nm rt) := by
  have hres : syncOsRoutes rid nm nbrs rt inst =
      (dictKeys (rt.foldl (syncStep rid nm nbrs) ([], inst)).2).foldl
        (cleanupStep (validPfxs nm rt)) (rt.foldl (syncStep rid nm nbrs) ([], inst)) := rfl
  constructor
  · intro e he pfx a hact
    have hA := syncFold_settles rid nm nbrs rt ([], inst) hpw e he pfx a hact
    rw [hres]
    cases a with
    | none => exact cleanupFold_none _ _ _ pfx hA
    | some ip =>
      have hinv := entryAction_inv rid nm nbrs e pfx (some ip) hact
      have hvalmem : some pfx ∈ validPfxs nm rt := by
        have := mem_validPfxs nm rt e he (hinv.2 (by simp))
        rwa [hinv.1] at this
      rw [cleanupFold_frame_valid _ _ _ pfx hvalmem]
      exact hA
  · intro q hq
    rw [hres] at hq
    have hqA : dictGet (rt.foldl (syncStep rid nm nbrs) ([], inst)).2 q ≠ none := by
      intro h0
      exact hq (cleanupFold_none _ _ _ q h0)
    have hmem : q ∈ dictKeys (rt.foldl (syncStep rid nm nbrs) ([], inst)).2 :=
      (dictGet_ne_none_iff_mem_keys _ q).mp hqA
    exact cleanupFold_valid_keys _ _ _ q hmem hq

/-- Claim C8 amended: the forwarding reconciler is idempotent provided no
two distinct routing-table destinations resolve to the same prefix (the
identifier-to-prefix map is injective where defined): the second of two
consecutive passes with no intervening change emits no intents and leaves
the shadow map unchanged.  With colliding prefixes the second pass can
emit intents (see the counterexample). -/
theorem c8_reconciler_idempotent (rid : String) (nm : List (String × String))
    (nbrs : List (String × Neighbor)) (rt : List (String × Route))
    (inst : List (String × String))
    (hkeys : (rt.map Prod.fst).Nodup)
    (hinj : ∀ d1 d2 p, dictGet nm d1 = some p → dictGet nm d2 = some p → d1 = d2) :
    syncOsRoutes rid nm nbrs rt (syncOsRoutes rid nm nbrs rt inst).2
      = ([], (syncOsRoutes rid nm nbrs rt inst).2) := by
  have hpw : rt.Pairwise (fun e1 e2 => ∀ p1 a1 p2 a2,
      entryAction rid nm nbrs e1 = some (p1, a1) →
      entryAction rid nm nbrs e2 = some (p2, a2) → p1 ≠ p2) := by
    have hne : rt.Pairwise (fun a b => a.1 ≠ b.1) := List.pairwise_map.mp hkeys
    refine hne.imp ?_
    intro x y hxy p1 a1 p2 a2 h1 h2 hp
    have hx := (entryAction_inv rid nm nbrs x p1 a1 h1).1
    have hy := (entryAction_inv rid nm nbrs y p2 a2 h2).1
    subst hp
    exact hxy (hinj x.1 y.1 p1 hx hy)
  obtain ⟨hset, hval⟩ := syncOs_establishes rid nm nbrs rt inst hpw
  exact syncOs_noop_of rid nm nbrs rt _ hset hval

/-- The two-destinations-one-prefix network map of the C8 counterexample. -/
def c8nm : List (String × String) := [("a", "P"), ("b", "P")]

/-- Routing table with a reachable and a poisoned destination that share
prefix `P`. -/
def c8rt : List (String × Route) := [("r1", ⟨0, "r1"⟩), ("a", ⟨5, "n"⟩), ("b", ⟨999, "n"⟩)]

/-- The single neighbor `n` the reachable route resolves through. -/
def c8nbrs : List (String × Neighbor) := [("n", { exNeighbor with ip := "9.9.9.9" })]

/-- Counterexample to claim C8 as stated for every network map: when two
destinations share prefix `P` (one reachable, one poisoned), every pass —
including the second of two consecutive passes with no state change —
emits an install and a remove intent for `P`. -/
theorem c8_counterexample :
    (syncOsRoutes "r1" c8nm c8nbrs c8rt
        (syncOsRoutes "r1" c8nm c8nbrs c8rt []).2).1
      = [.add "P" "9.9.9.9", .remove "P"]
    ∧ ([Intent.add "P" "9.9.9.9", Intent.remove "P"] : List Intent) ≠ [] := by
  refine ⟨by with_unfolding_all rfl, by simp⟩

/-- The injective variant of the counterexample's network map. -/
def c8nmInj : List (String × String) := [("a", "PA"), ("b", "PB")]

/-- Witness for C8's amended theorem: with distinct prefixes the second
pass is a no-op. -/
theorem c8_witness :
    syncOsRoutes "r1" c8nmInj c8nbrs c8rt (syncOsRoutes "r1" c8nmInj c8nbrs c8rt []).2
      = ([], (syncOsRoutes "r1" c8nmInj c8nbrs c8rt []).2) := by
  apply c8_reconciler_idempotent
  · decide
  · intro d1 d2 p h1 h2
    have inv : ∀ d q, dictGet c8nmInj d = some q →
        (d = "a" ∧ q = "PA") ∨ (d = "b" ∧ q = "PB") := by
      intro d q h
      unfold c8nmInj dictGet at h
      by_cases ha : "a" = d
      · rw [if_pos ha] at h
        exact Or.inl ⟨ha.symm, (Option.some_inj.mp h).symm⟩
      · rw [if_neg ha] at h
        unfold dictGet at h
        by_cases hb : "b" = d
        · rw [if_pos hb] at h
          exact Or.inr ⟨hb.symm, (Option.some_inj.mp h).symm⟩
        · rw [if_neg hb] at h
          cases h
    rcases inv d1 p h1 with ⟨hd1, hp1⟩ | ⟨hd1, hp1⟩ <;>
      rcases inv d2 p h2 with ⟨hd2, hp2⟩ | ⟨hd2, hp2⟩ <;>
        subst hd1 <;> subst hd2 <;> subst hp1 <;>
          first
          | rfl
          | exact absurd hp2 (by decide)

end SimpleRouter
